import Mathlib

/-!
Shallow embedding of `src/perceptron.hh` / `src/perceptron.cc`: the gem5-style
path-indexed perceptron branch predictor `PerceptronBP`.

Modelling conventions:
* `Addr` (64-bit unsigned) and the C++ `unsigned` members are modelled as `Nat`;
  the `unsigned` members that are assigned from 64-bit `Addr` expressions keep the
  explicit `% 2 ^ 32` truncation.  Weights (`int`) are modelled as `Int`.
* `branchHistoryTable` entries are declared `int` in the source but every value
  ever stored is masked with `localMask` (hence non-negative and small), so they
  are modelled as `Nat`.
* `std::vector` is modelled as `List`; `operator[]` reads become `List.getD`
  (all source reads are in range on well-formed states) and element writes become
  `List.set` (a no-op out of range, which cannot occur on well-formed states).
* The opaque `void *bp_history` handle is a `BPHistory` value.  A function that
  sets the caller's handle to `nullptr` returns `none` for the handle.
-/

namespace PerceptronBP

/-- Constructor parameters (`PerceptronBPParams`): the three bit widths and the
number of hardware threads. -/
structure PerceptronBPParams where
  globalHistoryBits : Nat
  localHistoryBits : Nat
  branchAddrBits : Nat
  numThreads : Nat
deriving DecidableEq, Repr

/-- The `makeMask` lambda from the constructor: a `bits`-wide all-ones mask
computed in 64-bit `Addr` arithmetic. -/
def makeMask (bits : Nat) : Nat :=
  if bits = 0 then 0 else if 64 ≤ bits then 2 ^ 64 - 1 else 2 ^ bits - 1

/-- `history_length = globalHistoryBits + localHistoryBits` (constructor init list). -/
def PerceptronBPParams.history_length (p : PerceptronBPParams) : Nat :=
  p.globalHistoryBits + p.localHistoryBits

/-- The `globalHistoryMask` member: `makeMask(globalHistoryBits)` truncated by the
assignment to a 32-bit `unsigned` member. -/
def PerceptronBPParams.globalHistoryMask (p : PerceptronBPParams) : Nat :=
  makeMask p.globalHistoryBits % 2 ^ 32

/-- The `localMask` member: `makeMask(localHistoryBits)` truncated to `unsigned`. -/
def PerceptronBPParams.localMask (p : PerceptronBPParams) : Nat :=
  makeMask p.localHistoryBits % 2 ^ 32

/-- The `pcMask` member: `makeMask(branchAddrBits)` truncated to `unsigned`. -/
def PerceptronBPParams.pcMask (p : PerceptronBPParams) : Nat :=
  makeMask p.branchAddrBits % 2 ^ 32

/-- `PT_LEN = std::max(branchAddrBits, history_length)`: the fixed capacity of each
per-thread path queue (`updateHistories`, and the same expression sizes the queues
in the constructor). -/
def PerceptronBPParams.PT_LEN (p : PerceptronBPParams) : Nat :=
  max p.branchAddrBits p.history_length

/-- Configuration sanity: each width fits in the 32-bit `unsigned` members without
truncation and without shift overflow, and the configuration is not the degenerate
one with no history bits and no address bits (whose path queues would have capacity
0, making `pt.back()` in `updateHistories` undefined behaviour). -/
def PerceptronBPParams.WF (p : PerceptronBPParams) : Prop :=
  p.globalHistoryBits ≤ 31 ∧ p.localHistoryBits ≤ 31 ∧ p.branchAddrBits ≤ 31 ∧
    0 < p.branchAddrBits + p.history_length

/-- The per-prediction snapshot record `PerceptronBP::BPHistory`.
`local` is a Lean keyword, so the `int local` field is named `local_`.
The C++ `unsigned branchAddr` field is uninitialized until the eviction branch of
`updateHistories` stores into it; it is modelled with initial value 0 (it is read
only when `branchAddrReplaced` is set, which is set together with it). -/
structure BPHistory where
  globalHistoryReg : Nat
  branchAddr : Nat
  local_ : Nat
  path : List Nat
  new_pc : Nat
  branchAddrReplaced : Bool
  last_y : Int
deriving DecidableEq, Repr

/-- The mutable member state of a `PerceptronBP` object. -/
structure State where
  globalHistoryReg : List Nat
  branchHistoryTable : List Nat
  pathTable : List (List Nat)
  historyWeightTable : List (List Int)
  addrWeightTable : List (List Int)
deriving DecidableEq, Repr

/-- The constructor `PerceptronBP::PerceptronBP`: global registers and the local
BHT zeroed, each path queue holding `PT_LEN` zero entries, both weight tables
zeroed with `2 ^ branchAddrBits` rows. -/
def initState (p : PerceptronBPParams) : State where
  globalHistoryReg := List.replicate p.numThreads 0
  branchHistoryTable := List.replicate (2 ^ p.branchAddrBits) 0
  pathTable := List.replicate p.numThreads (List.replicate p.PT_LEN 0)
  historyWeightTable :=
    List.replicate (2 ^ p.branchAddrBits) (List.replicate (p.history_length + 1) 0)
  addrWeightTable :=
    List.replicate (2 ^ p.branchAddrBits) (List.replicate (p.branchAddrBits + 1) 0)

/-- Read weight `t[k][j]` of a weight table. -/
def getEntry (t : List (List Int)) (k j : Nat) : Int :=
  (t.getD k []).getD j 0

/-- One `++t[k][j]` / `--t[k][j]` step (`d` is `1` or `-1`). -/
def adjustEntry (t : List (List Int)) (k j : Nat) (d : Int) : List (List Int) :=
  t.set k ((t.getD k []).set j (getEntry t k j + d))

/-- The scoring loop shape shared by the two loops of `lookup`:
`for (j = 1; j <= n; ++j) { k = path[j-1]; if (bit(j-1)) y += t[k][j]; else y -= t[k][j]; }`
(the loop counter `i` below is `j - 1`). -/
def scoreTable (t : List (List Int)) (path : List Nat) (n : Nat) (bit : Nat → Bool)
    (bias : Int) : Int :=
  (List.range n).foldl
    (fun y i =>
      let k := path.getD i 0
      if bit i then y + getEntry t k (i + 1) else y - getEntry t k (i + 1))
    bias

/-- The training loop shape shared by the two loops of `update`:
`for (j = 1; j <= n; ++j) { k = path[j-1]; if (taken == bit(j-1)) ++t[k][j]; else --t[k][j]; }`
(the loop counter `i` below is `j - 1`). -/
def trainTable (t : List (List Int)) (path : List Nat) (n : Nat) (bit : Nat → Bool)
    (taken : Bool) : List (List Int) :=
  (List.range n).foldl
    (fun acc i =>
      let k := path.getD i 0
      adjustEntry acc k (i + 1) (if taken = bit i then 1 else -1))
    t

/-- `PerceptronBP::lookup(tid, pc, bp_history)`.  Returns the (unmodified) member
state, the prediction `y >= 0`, and the freshly allocated `BPHistory` snapshot
written through `bp_history`.  The function body contains no write to any member,
which is why the state component is returned as-is. -/
def lookup (p : PerceptronBPParams) (s : State) (tid pc : Nat) :
    State × Bool × BPHistory :=
  let new_pc := pc &&& p.pcMask
  let global := s.globalHistoryReg.getD tid 0 &&& p.globalHistoryMask
  let local_ := s.branchHistoryTable.getD new_pc 0 &&& p.localMask
  let history_reg := (global <<< p.localHistoryBits) ||| local_
  let y_hist := scoreTable s.historyWeightTable (s.pathTable.getD tid [])
    p.history_length (fun i => history_reg.testBit i)
    (getEntry s.historyWeightTable new_pc 0)
  let y_addr := scoreTable s.addrWeightTable (s.pathTable.getD tid [])
    p.branchAddrBits (fun i => new_pc.testBit i)
    (getEntry s.addrWeightTable new_pc 0)
  let y := y_addr + y_hist
  (s, decide (0 ≤ y),
    { globalHistoryReg := s.globalHistoryReg.getD tid 0
      branchAddr := 0
      local_ := local_
      path := s.pathTable.getD tid []
      new_pc := new_pc
      branchAddrReplaced := false
      last_y := y })

/-- `PerceptronBP::update(tid, pc, taken, bp_history, squashed, inst, target)`.
Trains the two weight tables when `squashed || (-64 <= last_y && last_y <= 64)`,
reading the history recorded in the snapshot, then deletes the snapshot and nulls
the handle when `!squashed` (second component `none`).  `tid`, `inst` and `target`
are unused by the source body. -/
def update (p : PerceptronBPParams) (s : State) (tid pc : Nat) (taken : Bool)
    (bp_history : BPHistory) (squashed : Bool) : State × Option BPHistory :=
  let history := bp_history
  let new_pc := pc &&& p.pcMask
  let s' :=
    if squashed = true ∨ (history.last_y ≤ 64 ∧ -64 ≤ history.last_y) then
      let hwt := adjustEntry s.historyWeightTable new_pc 0 (if taken then 1 else -1)
      let global := history.globalHistoryReg &&& p.globalHistoryMask
      let local_ := history.local_
      let history_reg := (global <<< p.localHistoryBits) ||| local_
      let hwt := trainTable hwt history.path p.history_length
        (fun i => history_reg.testBit i) taken
      let awt := adjustEntry s.addrWeightTable new_pc 0 (if taken then 1 else -1)
      let awt := trainTable awt history.path p.branchAddrBits
        (fun i => new_pc.testBit i) taken
      { s with historyWeightTable := hwt, addrWeightTable := awt }
    else s
  (s', if squashed then some history else none)

/-- `PerceptronBP::updateHistories(tid, pc, uncond, taken, target, inst, bp_history)`:
speculatively advances the shared history.  For an unconditional branch a fresh
minimal snapshot replaces the handle first.  Shifts the outcome bit into the global
register and the bucket's local register (both masked), and pushes `new_pc` onto
the front of the thread's path queue, recording the evicted back element in the
snapshot when the queue is at capacity `PT_LEN`.  (`pt.back()` on an empty queue is
UB in the source; it is modelled totally as `getLastD _ 0`.) -/
def updateHistories (p : PerceptronBPParams) (s : State) (tid pc : Nat)
    (uncond taken : Bool) (bp_history : BPHistory) : State × BPHistory :=
  let new_pc := pc &&& p.pcMask
  let history :=
    if uncond then
      { globalHistoryReg := s.globalHistoryReg.getD tid 0
        branchAddr := 0
        local_ := s.branchHistoryTable.getD new_pc 0 &&& p.localMask
        path := s.pathTable.getD tid []
        new_pc := new_pc
        branchAddrReplaced := false
        last_y := 0 : BPHistory }
    else bp_history
  let ghr' := s.globalHistoryReg.set tid
    (((s.globalHistoryReg.getD tid 0 <<< 1) ||| (if taken then 1 else 0)) &&&
      p.globalHistoryMask)
  let bht' := s.branchHistoryTable.set new_pc
    (((s.branchHistoryTable.getD new_pc 0 <<< 1) ||| (if taken then 1 else 0)) &&&
      p.localMask)
  let pt := s.pathTable.getD tid []
  let hp : BPHistory × List Nat :=
    if pt.length = p.PT_LEN then
      ({ history with branchAddr := pt.getLastD 0, branchAddrReplaced := true },
        pt.dropLast)
    else (history, pt)
  let pt' := new_pc :: hp.2
  ({ s with
      globalHistoryReg := ghr'
      branchHistoryTable := bht'
      pathTable := s.pathTable.set tid pt' },
    hp.1)

/-- `PerceptronBP::squash(tid, bp_history)`: restores the global register and the
touched bucket's local register from the snapshot, pops the front of the thread's
path queue (if non-empty), pushes the recorded evicted address back onto the tail
when the snapshot recorded an eviction, then deletes the snapshot and nulls the
handle (second component `none`). -/
def squash (s : State) (tid : Nat) (bp_history : BPHistory) :
    State × Option BPHistory :=
  let history := bp_history
  let ghr' := s.globalHistoryReg.set tid history.globalHistoryReg
  let bht' := s.branchHistoryTable.set history.new_pc history.local_
  let pt := s.pathTable.getD tid []
  let pt := if pt.isEmpty then pt else pt.tail
  let pt := if history.branchAddrReplaced then pt ++ [history.branchAddr] else pt
  ({ s with
      globalHistoryReg := ghr'
      branchHistoryTable := bht'
      pathTable := s.pathTable.set tid pt },
    none)

/-- States reachable through the predictor's API from the constructor state.
`squash` is included under the caller contract of §6/§7 of the spec: it is only
ever invoked with a snapshot that a matching `updateHistories` produced, and on a
well-formed reachable state every such snapshot has `branchAddrReplaced = true`
and carries a `localMask`-masked `local_` value; the step requires exactly those
two facts. -/
inductive Reachable (p : PerceptronBPParams) : State → Prop
  | init : Reachable p (initState p)
  | lookupStep {s : State} (tid pc : Nat) :
      Reachable p s → Reachable p (lookup p s tid pc).1
  | advanceStep {s : State} (tid pc : Nat) (uncond taken : Bool) (h : BPHistory) :
      Reachable p s → Reachable p (updateHistories p s tid pc uncond taken h).1
  | updateStep {s : State} (tid pc : Nat) (taken : Bool) (h : BPHistory)
      (squashed : Bool) :
      Reachable p s → Reachable p (update p s tid pc taken h squashed).1
  | squashStep {s : State} (tid : Nat) (h : BPHistory)
      (hrep : h.branchAddrReplaced = true)
      (hmask : h.local_ &&& p.localMask = h.local_) :
      Reachable p s → Reachable p (squash s tid h).1

/-- Structural well-formedness of a state: the container dimensions fixed by the
constructor, plus the fact that every local-history entry is already masked. -/
structure Inv (p : PerceptronBPParams) (s : State) : Prop where
  ghr_len : s.globalHistoryReg.length = p.numThreads
  bht_len : s.branchHistoryTable.length = 2 ^ p.branchAddrBits
  pt_len : s.pathTable.length = p.numThreads
  path_len : ∀ tid, tid < p.numThreads → (s.pathTable.getD tid []).length = p.PT_LEN
  bht_masked : ∀ b, s.branchHistoryTable.getD b 0 &&& p.localMask =
    s.branchHistoryTable.getD b 0
  hwt_len : s.historyWeightTable.length = 2 ^ p.branchAddrBits
  hwt_rows : ∀ k, k < 2 ^ p.branchAddrBits →
    (s.historyWeightTable.getD k []).length = p.history_length + 1
  awt_len : s.addrWeightTable.length = 2 ^ p.branchAddrBits
  awt_rows : ∀ k, k < 2 ^ p.branchAddrBits →
    (s.addrWeightTable.getD k []).length = p.branchAddrBits + 1

/-- Distance between two equally-shaped weight tables: the total number of
unit steps separating them, `Σ_k Σ_j |t1[k][j] - t2[k][j]|` (indices ranging over
the shape of `t1`). -/
def tableDist (t1 t2 : List (List Int)) : Nat :=
  ∑ k in Finset.range t1.length,
    ∑ j in Finset.range (t1.getD k []).length,
      (getEntry t1 k j - getEntry t2 k j).natAbs

/-- The history-perceptron score of `lookup`, written the way the specification
describes it: bias `historyWeights[bucket][0]` plus, for `j = 1..historyLength`,
`historyWeights[pathQueue[j-1]][j]` added when bit `j-1` of the combined
global-high/local-low history is 1 and subtracted otherwise. -/
def specHistoryScore (p : PerceptronBPParams) (s : State) (tid pc : Nat) : Int :=
  let bucket := pc &&& p.pcMask
  let combined := ((s.globalHistoryReg.getD tid 0 &&& p.globalHistoryMask) <<<
    p.localHistoryBits) ||| (s.branchHistoryTable.getD bucket 0 &&& p.localMask)
  getEntry s.historyWeightTable bucket 0 +
    ∑ i in Finset.range p.history_length,
      (if combined.testBit i then (1 : Int) else -1) *
        getEntry s.historyWeightTable ((s.pathTable.getD tid []).getD i 0) (i + 1)

/-- The address-perceptron score of `lookup`, written the way the specification
describes it: bias `addressWeights[bucket][0]` plus, for `j = 1..branchAddrBits`,
`addressWeights[pathQueue[j-1]][j]` added when bit `j-1` of the PC is 1 and
subtracted otherwise. -/
def specAddrScore (p : PerceptronBPParams) (s : State) (tid pc : Nat) : Int :=
  let bucket := pc &&& p.pcMask
  getEntry s.addrWeightTable bucket 0 +
    ∑ i in Finset.range p.branchAddrBits,
      (if pc.testBit i then (1 : Int) else -1) *
        getEntry s.addrWeightTable ((s.pathTable.getD tid []).getD i 0) (i + 1)

/-- A small concrete configuration (1 global bit, 1 local bit, 1 address bit,
1 thread) used to instantiate theorems on concrete inputs. -/
def wp : PerceptronBPParams := ⟨1, 1, 1, 1⟩

/-! ### List helpers -/

theorem getD_set {α : Type} (l : List α) (i j : Nat) (a d : α) :
    (l.set i a).getD j d = if j = i ∧ i < l.length then a else l.getD j d := by
  induction l generalizing i j with
  | nil => simp
  | cons x xs ih =>
    cases i with
    | zero =>
      cases j with
      | zero => simp
      | succ j => simp
    | succ i =>
      cases j with
      | zero => simp
      | succ j => simpa [Nat.succ_lt_succ_iff] using ih i j

theorem getD_set_self {α : Type} (l : List α) (i : Nat) (a d : α)
    (h : i < l.length) : (l.set i a).getD i d = a := by
  simp [getD_set, h]

theorem dropLast_append_getLastD {α : Type} (l : List α) (d : α) (h : l ≠ []) :
    l.dropLast ++ [l.getLastD d] = l := by
  have hl : l.getLastD d = l.getLast h := by
    simp [List.getLastD_eq_getLast?, List.getLast?_eq_getLast l h]
  rw [hl]
  exact List.dropLast_concat_getLast h

/-! ### Mask facts -/

theorem globalHistoryMask_eq {p : PerceptronBPParams} (hwf : p.WF) :
    p.globalHistoryMask = 2 ^ p.globalHistoryBits - 1 := by
  obtain ⟨h1, -, -, -⟩ := hwf
  have h64 : ¬ 64 ≤ p.globalHistoryBits := by omega
  have hlt : 2 ^ p.globalHistoryBits - 1 < 2 ^ 32 := by
    have : 2 ^ p.globalHistoryBits ≤ 2 ^ 32 := Nat.pow_le_pow_right (by norm_num) (by omega)
    omega
  unfold PerceptronBPParams.globalHistoryMask makeMask
  rcases Nat.eq_zero_or_pos p.globalHistoryBits with h0 | h0
  · simp [h0]
  · rw [if_neg (by omega), if_neg h64, Nat.mod_eq_of_lt hlt]

theorem localMask_eq {p : PerceptronBPParams} (hwf : p.WF) :
    p.localMask = 2 ^ p.localHistoryBits - 1 := by
  obtain ⟨-, h1, -, -⟩ := hwf
  have h64 : ¬ 64 ≤ p.localHistoryBits := by omega
  have hlt : 2 ^ p.localHistoryBits - 1 < 2 ^ 32 := by
    have : 2 ^ p.localHistoryBits ≤ 2 ^ 32 := Nat.pow_le_pow_right (by norm_num) (by omega)
    omega
  unfold PerceptronBPParams.localMask makeMask
  rcases Nat.eq_zero_or_pos p.localHistoryBits with h0 | h0
  · simp [h0]
  · rw [if_neg (by omega), if_neg h64, Nat.mod_eq_of_lt hlt]

theorem pcMask_eq {p : PerceptronBPParams} (hwf : p.WF) :
    p.pcMask = 2 ^ p.branchAddrBits - 1 := by
  obtain ⟨-, -, h1, -⟩ := hwf
  have h64 : ¬ 64 ≤ p.branchAddrBits := by omega
  have hlt : 2 ^ p.branchAddrBits - 1 < 2 ^ 32 := by
    have : 2 ^ p.branchAddrBits ≤ 2 ^ 32 := Nat.pow_le_pow_right (by norm_num) (by omega)
    omega
  unfold PerceptronBPParams.pcMask makeMask
  rcases Nat.eq_zero_or_pos p.branchAddrBits with h0 | h0
  · simp [h0]
  · rw [if_neg (by omega), if_neg h64, Nat.mod_eq_of_lt hlt]

theorem bucket_lt {p : PerceptronBPParams} (hwf : p.WF) (pc : Nat) :
    pc &&& p.pcMask < 2 ^ p.branchAddrBits := by
  have := pcMask_eq hwf
  have hpos : 0 < 2 ^ p.branchAddrBits := Nat.pos_pow_of_pos _ (by norm_num)
  exact Nat.and_lt_two_pow pc (by omega)

theorem land_land_self (a m : Nat) : a &&& m &&& m = a &&& m := by
  apply Nat.eq_of_testBit_eq
  intro i
  simp [Nat.testBit_and, Bool.and_assoc]

theorem PT_LEN_pos {p : PerceptronBPParams} (hwf : p.WF) : 0 < p.PT_LEN := by
  obtain ⟨-, -, -, h⟩ := hwf
  unfold PerceptronBPParams.PT_LEN
  rcases Nat.eq_zero_or_pos p.branchAddrBits with h0 | h0
  · exact lt_of_lt_of_le (by omega) (le_max_right _ _)
  · exact lt_of_lt_of_le h0 (le_max_left _ _)

/-! ### Weight-table update machinery -/

theorem length_adjustEntry (t : List (List Int)) (k j : Nat) (d : Int) :
    (adjustEntry t k j d).length = t.length := by
  simp [adjustEntry]

theorem row_length_adjustEntry (t : List (List Int)) (k j : Nat) (d : Int)
    (k' : Nat) : ((adjustEntry t k j d).getD k' []).length = (t.getD k' []).length := by
  unfold adjustEntry
  rw [getD_set]
  split
  · rename_i h
    rw [h.1, List.length_set]
  · rfl

theorem getEntry_adjustEntry (t : List (List Int)) (k j : Nat) (d : Int)
    (k' j' : Nat) :
    getEntry (adjustEntry t k j d) k' j' =
      if k' = k ∧ j' = j ∧ k < t.length ∧ j < (t.getD k []).length then
        getEntry t k j + d
      else getEntry t k' j' := by
  unfold adjustEntry getEntry
  rw [getD_set]
  by_cases hk : k' = k ∧ k < t.length
  · rw [if_pos hk, getD_set]
    by_cases hj : j' = j ∧ j < (t.getD k []).length
    · rw [if_pos hj, if_pos ⟨hk.1, hj.1, hk.2, hj.2⟩]
    · rw [if_neg hj, hk.1]
      rw [if_neg (by tauto)]
  · rw [if_neg hk]
    rw [if_neg (by tauto)]

theorem length_trainTable (t : List (List Int)) (path : List Nat) (n : Nat)
    (bit : Nat → Bool) (taken : Bool) :
    (trainTable t path n bit taken).length = t.length := by
  induction n with
  | zero => simp [trainTable]
  | succ n ih =>
    unfold trainTable at *
    rw [List.range_succ, List.foldl_append]
    simp only [List.foldl_cons, List.foldl_nil]
    rw [length_adjustEntry, ih]

theorem row_length_trainTable (t : List (List Int)) (path : List Nat) (n : Nat)
    (bit : Nat → Bool) (taken : Bool) (k' : Nat) :
    ((trainTable t path n bit taken).getD k' []).length = (t.getD k' []).length := by
  induction n with
  | zero => simp [trainTable]
  | succ n ih =>
    unfold trainTable at *
    rw [List.range_succ, List.foldl_append]
    simp only [List.foldl_cons, List.foldl_nil]
    rw [row_length_adjustEntry, ih]

theorem getEntry_trainTable (t : List (List Int)) (path : List Nat) (n : Nat)
    (bit : Nat → Bool) (taken : Bool) (k j : Nat) :
    getEntry (trainTable t path n bit taken) k j =
      if 0 < j ∧ j ≤ n ∧ k = path.getD (j - 1) 0 ∧ k < t.length ∧
          j < (t.getD k []).length then
        getEntry t k j + (if taken = bit (j - 1) then 1 else -1)
      else getEntry t k j := by
  induction n with
  | zero =>
    simp only [trainTable, List.range_zero, List.foldl_nil]
    rw [if_neg (by omega)]
  | succ n ih =>
    have hstep : trainTable t path (n + 1) bit taken =
        adjustEntry (trainTable t path n bit taken) (path.getD n 0) (n + 1)
          (if taken = bit n then 1 else -1) := by
      unfold trainTable
      rw [List.range_succ, List.foldl_append]
      simp only [List.foldl_cons, List.foldl_nil]
    rw [hstep, getEntry_adjustEntry, length_trainTable, row_length_trainTable]
    by_cases hcur : k = path.getD n 0 ∧ j = n + 1 ∧ path.getD n 0 < t.length ∧
        n + 1 < (t.getD (path.getD n 0) []).length
    · obtain ⟨hk, hj, hlen, hrow⟩ := hcur
      subst hk
      subst hj
      rw [if_pos ⟨rfl, rfl, hlen, hrow⟩]
      rw [ih, if_neg (by rintro ⟨-, h2, -, -, -⟩; omega)]
      rw [if_pos (show 0 < n + 1 ∧ n + 1 ≤ n + 1 ∧
          path.getD n 0 = path.getD (n + 1 - 1) 0 ∧ path.getD n 0 < t.length ∧
          n + 1 < (t.getD (path.getD n 0) []).length from
        ⟨by omega, le_refl _, by rw [Nat.add_sub_cancel], hlen, hrow⟩)]
      rw [Nat.add_sub_cancel]
    · rw [if_neg (by tauto)]
      rw [ih]
      by_cases hold : 0 < j ∧ j ≤ n ∧ k = path.getD (j - 1) 0 ∧ k < t.length ∧
        j < (t.getD k []).length
      · obtain ⟨h1, h2, h3, h4, h5⟩ := hold
        rw [if_pos ⟨h1, h2, h3, h4, h5⟩]
        rw [if_pos (show 0 < j ∧ j ≤ n + 1 ∧ k = path.getD (j - 1) 0 ∧
            k < t.length ∧ j < (t.getD k []).length from ⟨h1, by omega, h3, h4, h5⟩)]
      · rw [if_neg hold]
        rw [if_neg (by
          rintro ⟨h1, h2, h3, h4, h5⟩
          rcases Nat.lt_or_ge j (n + 1) with hlt | hge
          · exact hold ⟨h1, by omega, h3, h4, h5⟩
          · have hj : j = n + 1 := by omega
            have hn1 : j - 1 = n := by omega
            rw [hn1] at h3
            refine hcur ⟨h3, hj, ?_, ?_⟩
            · rw [← h3]; exact h4
            · rw [← h3, ← hj]; exact h5)]

/-- Two weight tables with identical dimensions. -/
def SameShape (t1 t2 : List (List Int)) : Prop :=
  t1.length = t2.length ∧ ∀ k, (t1.getD k []).length = (t2.getD k []).length

theorem sameShape_adjustEntry (t : List (List Int)) (k j : Nat) (d : Int) :
    SameShape (adjustEntry t k j d) t :=
  ⟨length_adjustEntry t k j d, fun k' => row_length_adjustEntry t k j d k'⟩

theorem sameShape_trainTable (t : List (List Int)) (path : List Nat) (n : Nat)
    (bit : Nat → Bool) (taken : Bool) : SameShape (trainTable t path n bit taken) t :=
  ⟨length_trainTable t path n bit taken, fun k' => row_length_trainTable t path n bit taken k'⟩

theorem tableDist_self (t : List (List Int)) : tableDist t t = 0 := by
  unfold tableDist
  simp

theorem tableDist_triangle {t1 t2 : List (List Int)} (t3 : List (List Int))
    (h : SameShape t1 t2) :
    tableDist t1 t3 ≤ tableDist t1 t2 + tableDist t2 t3 := by
  unfold tableDist
  rw [h.1]
  rw [← Finset.sum_add_distrib]
  apply Finset.sum_le_sum
  intro k _
  rw [h.2 k]
  rw [← Finset.sum_add_distrib]
  apply Finset.sum_le_sum
  intro j _
  have : getEntry t1 k j - getEntry t3 k j =
      (getEntry t1 k j - getEntry t2 k j) + (getEntry t2 k j - getEntry t3 k j) := by ring
  rw [this]
  exact Int.natAbs_add_le _ _

theorem tableDist_adjustEntry_le (t : List (List Int)) (k j : Nat) (d : Int) :
    tableDist (adjustEntry t k j d) t ≤ d.natAbs := by
  unfold tableDist
  rw [length_adjustEntry]
  have hrow : ∀ k', ((adjustEntry t k j d).getD k' []).length = (t.getD k' []).length :=
    row_length_adjustEntry t k j d
  calc ∑ k' in Finset.range t.length,
        ∑ j' in Finset.range ((adjustEntry t k j d).getD k' []).length,
          (getEntry (adjustEntry t k j d) k' j' - getEntry t k' j').natAbs
      ≤ ∑ k' in Finset.range t.length,
          (if k' = k then d.natAbs else 0) := by
        apply Finset.sum_le_sum
        intro k' _
        rw [hrow]
        by_cases hk : k' = k
        · rw [if_pos hk]
          subst hk
          calc ∑ j' in Finset.range (t.getD k' []).length,
                (getEntry (adjustEntry t k' j d) k' j' - getEntry t k' j').natAbs
              ≤ ∑ j' in Finset.range (t.getD k' []).length,
                  (if j' = j then d.natAbs else 0) := by
                apply Finset.sum_le_sum
                intro j' _
                rw [getEntry_adjustEntry]
                by_cases hj : j' = j
                · subst hj
                  split
                  · simp
                  · simp
                · rw [if_neg (by tauto), if_neg hj]
                  simp
            _ ≤ d.natAbs := by
                rw [Finset.sum_ite_eq' (Finset.range (t.getD k' []).length) j
                  (fun _ => d.natAbs)]
                split <;> simp
        · calc ∑ j' in Finset.range (t.getD k' []).length,
                (getEntry (adjustEntry t k j d) k' j' - getEntry t k' j').natAbs
              = 0 := by
                apply Finset.sum_eq_zero
                intro j' _
                rw [getEntry_adjustEntry, if_neg (by tauto)]
                simp
            _ ≤ _ := Nat.zero_le _
    _ ≤ d.natAbs := by
        rw [Finset.sum_ite_eq' (Finset.range t.length) k (fun _ => d.natAbs)]
        split <;> simp

theorem tableDist_trainTable_le (t : List (List Int)) (path : List Nat) (n : Nat)
    (bit : Nat → Bool) (taken : Bool) :
    tableDist (trainTable t path n bit taken) t ≤ n := by
  induction n with
  | zero => simp [trainTable, tableDist_self]
  | succ n ih =>
    have hstep : trainTable t path (n + 1) bit taken =
        adjustEntry (trainTable t path n bit taken) (path.getD n 0) (n + 1)
          (if taken = bit n then 1 else -1) := by
      unfold trainTable
      rw [List.range_succ, List.foldl_append]
      simp only [List.foldl_cons, List.foldl_nil]
    rw [hstep]
    calc tableDist (adjustEntry (trainTable t path n bit taken) (path.getD n 0)
          (n + 1) (if taken = bit n then 1 else -1)) t
        ≤ tableDist (adjustEntry (trainTable t path n bit taken) (path.getD n 0)
            (n + 1) (if taken = bit n then 1 else -1))
            (trainTable t path n bit taken) +
          tableDist (trainTable t path n bit taken) t :=
          tableDist_triangle _ (sameShape_adjustEntry _ _ _ _)
      _ ≤ 1 + n := by
          have hd : (if taken = bit n then (1 : Int) else -1).natAbs = 1 := by
            split <;> rfl
          have h1 : tableDist (adjustEntry (trainTable t path n bit taken)
              (path.getD n 0) (n + 1) (if taken = bit n then 1 else -1))
              (trainTable t path n bit taken) ≤ 1 :=
            le_trans (tableDist_adjustEntry_le (trainTable t path n bit taken)
              (path.getD n 0) (n + 1) (if taken = bit n then 1 else -1))
              (le_of_eq hd)
          omega
      _ = n + 1 := by omega

/-- Folding the `lookup` scoring loop equals bias plus a signed sum. -/
theorem scoreTable_eq_sum (t : List (List Int)) (path : List Nat) (n : Nat)
    (bit : Nat → Bool) (bias : Int) :
    scoreTable t path n bit bias = bias +
      ∑ i in Finset.range n,
        (if bit i then (1 : Int) else -1) * getEntry t (path.getD i 0) (i + 1) := by
  induction n with
  | zero => simp [scoreTable]
  | succ n ih =>
    have hstep : scoreTable t path (n + 1) bit bias =
        (if bit n then scoreTable t path n bit bias + getEntry t (path.getD n 0) (n + 1)
         else scoreTable t path n bit bias - getEntry t (path.getD n 0) (n + 1)) := by
      unfold scoreTable
      rw [List.range_succ, List.foldl_append]
      simp only [List.foldl_cons, List.foldl_nil]
    rw [hstep, Finset.sum_range_succ, ih]
    split <;> ring

/-! ### Equation lemmas for the four operations -/

theorem lookup_fst (p : PerceptronBPParams) (s : State) (tid pc : Nat) :
    (lookup p s tid pc).1 = s := rfl

theorem updateHistories_fst (p : PerceptronBPParams) (s : State) (tid pc : Nat)
    (uncond taken : Bool) (h : BPHistory) :
    (updateHistories p s tid pc uncond taken h).1 =
      { s with
        globalHistoryReg := s.globalHistoryReg.set tid
          (((s.globalHistoryReg.getD tid 0 <<< 1) ||| (if taken then 1 else 0)) &&&
            p.globalHistoryMask)
        branchHistoryTable := s.branchHistoryTable.set (pc &&& p.pcMask)
          (((s.branchHistoryTable.getD (pc &&& p.pcMask) 0 <<< 1) |||
              (if taken then 1 else 0)) &&& p.localMask)
        pathTable := s.pathTable.set tid ((pc &&& p.pcMask) ::
          (if (s.pathTable.getD tid []).length = p.PT_LEN then
            (s.pathTable.getD tid []).dropLast
          else s.pathTable.getD tid [])) } := by
  by_cases hc : (s.pathTable.getD tid []).length = p.PT_LEN
  · simp only [updateHistories]
    rw [if_pos hc, if_pos hc]
  · simp only [updateHistories]
    rw [if_neg hc, if_neg hc]

theorem updateHistories_snd (p : PerceptronBPParams) (s : State) (tid pc : Nat)
    (uncond taken : Bool) (h : BPHistory) :
    (updateHistories p s tid pc uncond taken h).2 =
      (if (s.pathTable.getD tid []).length = p.PT_LEN then
        { (if uncond then
            { globalHistoryReg := s.globalHistoryReg.getD tid 0
              branchAddr := 0
              local_ := s.branchHistoryTable.getD (pc &&& p.pcMask) 0 &&& p.localMask
              path := s.pathTable.getD tid []
              new_pc := pc &&& p.pcMask
              branchAddrReplaced := false
              last_y := 0 : BPHistory }
          else h) with
          branchAddr := (s.pathTable.getD tid []).getLastD 0
          branchAddrReplaced := true }
      else
        (if uncond then
          { globalHistoryReg := s.globalHistoryReg.getD tid 0
            branchAddr := 0
            local_ := s.branchHistoryTable.getD (pc &&& p.pcMask) 0 &&& p.localMask
            path := s.pathTable.getD tid []
            new_pc := pc &&& p.pcMask
            branchAddrReplaced := false
            last_y := 0 : BPHistory }
        else h)) := by
  by_cases hc : (s.pathTable.getD tid []).length = p.PT_LEN
  · simp only [updateHistories]
    rw [if_pos hc, if_pos hc]
  · simp only [updateHistories]
    rw [if_neg hc, if_neg hc]

theorem update_fst (p : PerceptronBPParams) (s : State) (tid pc : Nat)
    (taken : Bool) (h : BPHistory) (squashed : Bool) :
    (update p s tid pc taken h squashed).1 =
      if squashed = true ∨ (h.last_y ≤ 64 ∧ -64 ≤ h.last_y) then
        { s with
          historyWeightTable := trainTable
            (adjustEntry s.historyWeightTable (pc &&& p.pcMask) 0
              (if taken then 1 else -1))
            h.path p.history_length
            (fun i => (((h.globalHistoryReg &&& p.globalHistoryMask) <<<
              p.localHistoryBits) ||| h.local_).testBit i) taken
          addrWeightTable := trainTable
            (adjustEntry s.addrWeightTable (pc &&& p.pcMask) 0
              (if taken then 1 else -1))
            h.path p.branchAddrBits
            (fun i => (pc &&& p.pcMask).testBit i) taken }
      else s := by
  simp only [update]

theorem update_snd (p : PerceptronBPParams) (s : State) (tid pc : Nat)
    (taken : Bool) (h : BPHistory) (squashed : Bool) :
    (update p s tid pc taken h squashed).2 =
      if squashed then some h else none := rfl

theorem squash_fst (s : State) (tid : Nat) (h : BPHistory) :
    (squash s tid h).1 =
      { s with
        globalHistoryReg := s.globalHistoryReg.set tid h.globalHistoryReg
        branchHistoryTable := s.branchHistoryTable.set h.new_pc h.local_
        pathTable := s.pathTable.set tid
          (if h.branchAddrReplaced then
            (if (s.pathTable.getD tid []).isEmpty then s.pathTable.getD tid []
             else (s.pathTable.getD tid []).tail) ++ [h.branchAddr]
          else
            (if (s.pathTable.getD tid []).isEmpty then s.pathTable.getD tid []
             else (s.pathTable.getD tid []).tail)) } := rfl

theorem squash_snd (s : State) (tid : Nat) (h : BPHistory) :
    (squash s tid h).2 = none := rfl

/-! ### Invariant preservation and the reachable states -/

theorem inv_init (p : PerceptronBPParams) : Inv p (initState p) := by
  constructor
  · simp [initState]
  · simp [initState]
  · simp [initState]
  · intro tid htid
    simp [initState, List.getD_eq_getElem?_getD, List.getElem?_replicate, htid]
  · intro b
    rcases Nat.lt_or_ge b (2 ^ p.branchAddrBits) with hb | hb
    · simp [initState, List.getD_eq_getElem?_getD, List.getElem?_replicate, hb]
    · have hz : (initState p).branchHistoryTable.getD b 0 = 0 := by
        apply List.getD_eq_default
        simp [initState]
        omega
      rw [hz]
      exact Nat.zero_and _
  · simp [initState]
  · intro k hk
    simp [initState, List.getD_eq_getElem?_getD, List.getElem?_replicate, hk]
  · simp [initState]
  · intro k hk
    simp [initState, List.getD_eq_getElem?_getD, List.getElem?_replicate, hk]

theorem inv_updateHistories {p : PerceptronBPParams} {s : State}
    (hwf : p.WF) (hinv : Inv p s) (tid pc : Nat) (uncond taken : Bool)
    (h : BPHistory) : Inv p (updateHistories p s tid pc uncond taken h).1 := by
  rw [updateHistories_fst]
  obtain ⟨i1, i2, i3, i4, i5, i6, i7, i8, i9⟩ := hinv
  constructor
  · simpa using i1
  · simpa using i2
  · simpa using i3
  · intro tid' htid'
    simp only []
    rw [getD_set]
    split
    · rename_i hc
      obtain ⟨hceq, -⟩ := hc
      subst hceq
      have hlen := i4 tid' htid'
      rw [if_pos hlen]
      simp only [List.length_cons, List.length_dropLast, hlen]
      have := PT_LEN_pos hwf
      omega
    · exact i4 tid' htid'
  · intro b
    simp only []
    rw [getD_set]
    split
    · exact land_land_self _ _
    · exact i5 b
  · simpa using i6
  · intro k hk
    simpa using i7 k hk
  · simpa using i8
  · intro k hk
    simpa using i9 k hk

theorem inv_update {p : PerceptronBPParams} {s : State}
    (hinv : Inv p s) (tid pc : Nat) (taken : Bool) (h : BPHistory)
    (squashed : Bool) : Inv p (update p s tid pc taken h squashed).1 := by
  rw [update_fst]
  split
  · obtain ⟨i1, i2, i3, i4, i5, i6, i7, i8, i9⟩ := hinv
    constructor
    · simpa using i1
    · simpa using i2
    · simpa using i3
    · intro tid' htid'
      simpa using i4 tid' htid'
    · intro b
      simpa using i5 b
    · simp only []
      rw [length_trainTable, length_adjustEntry]
      exact i6
    · intro k hk
      simp only []
      rw [row_length_trainTable, row_length_adjustEntry]
      exact i7 k hk
    · simp only []
      rw [length_trainTable, length_adjustEntry]
      exact i8
    · intro k hk
      simp only []
      rw [row_length_trainTable, row_length_adjustEntry]
      exact i9 k hk
  · exact hinv

theorem inv_squash {p : PerceptronBPParams} {s : State}
    (hwf : p.WF) (hinv : Inv p s) (tid : Nat) (h : BPHistory)
    (hrep : h.branchAddrReplaced = true)
    (hmask : h.local_ &&& p.localMask = h.local_) :
    Inv p (squash s tid h).1 := by
  rw [squash_fst]
  obtain ⟨i1, i2, i3, i4, i5, i6, i7, i8, i9⟩ := hinv
  constructor
  · simpa using i1
  · simpa using i2
  · simpa using i3
  · intro tid' htid'
    simp only []
    rw [getD_set]
    split
    · rename_i hc
      obtain ⟨hceq, -⟩ := hc
      subst hceq
      have hlen := i4 tid' htid'
      have hpos := PT_LEN_pos hwf
      have hne : (s.pathTable.getD tid' []).isEmpty = false := by
        cases hq : s.pathTable.getD tid' [] with
        | nil => rw [hq] at hlen; simp at hlen; omega
        | cons a l => rfl
      rw [hne, if_neg Bool.false_ne_true]
      simp only [List.length_append, List.length_tail, hlen, List.length_singleton]
      omega
    · exact i4 tid' htid'
  · intro b
    simp only []
    rw [getD_set]
    split
    · exact hmask
    · exact i5 b
  · simpa using i6
  · intro k hk
    simpa using i7 k hk
  · simpa using i8
  · intro k hk
    simpa using i9 k hk

theorem reachable_inv {p : PerceptronBPParams} {s : State}
    (hwf : p.WF) (hr : Reachable p s) : Inv p s := by
  induction hr with
  | init => exact inv_init p
  | lookupStep tid pc _ ih => rw [lookup_fst]; exact ih
  | advanceStep tid pc uncond taken h _ ih =>
      exact inv_updateHistories hwf ih tid pc uncond taken h
  | updateStep tid pc taken h squashed _ ih =>
      exact inv_update ih tid pc taken h squashed
  | squashStep tid h hrep hmask _ ih => exact inv_squash hwf ih tid h hrep hmask

/-! ### Frame facts and the advance/squash round trip -/

theorem updateHistories_weights (p : PerceptronBPParams) (s : State) (tid pc : Nat)
    (uncond taken : Bool) (h : BPHistory) :
    (updateHistories p s tid pc uncond taken h).1.historyWeightTable =
        s.historyWeightTable ∧
      (updateHistories p s tid pc uncond taken h).1.addrWeightTable =
        s.addrWeightTable := by
  rw [updateHistories_fst]
  exact ⟨rfl, rfl⟩

theorem squash_weights (s : State) (tid : Nat) (h : BPHistory) :
    (squash s tid h).1.historyWeightTable = s.historyWeightTable ∧
      (squash s tid h).1.addrWeightTable = s.addrWeightTable := by
  rw [squash_fst]
  exact ⟨rfl, rfl⟩

/-- Core of the round trip: on a state whose containers are well-dimensioned and
whose path queue for `tid` is at capacity, advancing with a snapshot that recorded
the live global register, the live (already masked) local register and the bucket,
and then squashing with the snapshot the advance returned, restores the global
register, the bucket's local register and the path queue. -/
theorem roundTrip_aux (p : PerceptronBPParams) (t : State) (tid pc : Nat)
    (taken : Bool) (h0 : BPHistory)
    (hwf : p.WF) (htid : tid < p.numThreads)
    (hpt : t.pathTable.length = p.numThreads)
    (hg : t.globalHistoryReg.length = p.numThreads)
    (hb : t.branchHistoryTable.length = 2 ^ p.branchAddrBits)
    (hq : (t.pathTable.getD tid []).length = p.PT_LEN)
    (hgv : h0.globalHistoryReg = t.globalHistoryReg.getD tid 0)
    (hlv : h0.local_ = t.branchHistoryTable.getD (pc &&& p.pcMask) 0)
    (hnp : h0.new_pc = pc &&& p.pcMask) :
    (squash (updateHistories p t tid pc false taken h0).1 tid
        (updateHistories p t tid pc false taken h0).2).1.globalHistoryReg.getD tid 0 =
      t.globalHistoryReg.getD tid 0 ∧
    (squash (updateHistories p t tid pc false taken h0).1 tid
        (updateHistories p t tid pc false taken h0).2).1.branchHistoryTable.getD
        (pc &&& p.pcMask) 0 =
      t.branchHistoryTable.getD (pc &&& p.pcMask) 0 ∧
    (squash (updateHistories p t tid pc false taken h0).1 tid
        (updateHistories p t tid pc false taken h0).2).1.pathTable.getD tid [] =
      t.pathTable.getD tid [] := by
  have hqne : t.pathTable.getD tid [] ≠ [] := by
    intro hnil
    rw [hnil] at hq
    have := PT_LEN_pos hwf
    simp at hq
    omega
  have hsnd : (updateHistories p t tid pc false taken h0).2 =
      { h0 with
        branchAddr := (t.pathTable.getD tid []).getLastD 0
        branchAddrReplaced := true } := by
    rw [updateHistories_snd, if_pos hq]
    rfl
  have hfst := updateHistories_fst p t tid pc false taken h0
  rw [if_pos hq] at hfst
  rw [hsnd, hfst, squash_fst]
  refine ⟨?_, ?_, ?_⟩
  · show ((t.globalHistoryReg.set tid _).set tid h0.globalHistoryReg).getD tid 0 = _
    rw [getD_set_self _ _ _ _ (by rw [List.length_set]; omega), hgv]
  · show ((t.branchHistoryTable.set (pc &&& p.pcMask) _).set h0.new_pc
      h0.local_).getD (pc &&& p.pcMask) 0 = _
    rw [hnp]
    rw [getD_set_self _ _ _ _ (by rw [List.length_set, hb]; exact bucket_lt hwf pc), hlv]
  · show ((t.pathTable.set tid _).set tid _).getD tid [] = _
    have htlt : tid < (t.pathTable.set tid
        ((pc &&& p.pcMask) :: (t.pathTable.getD tid []).dropLast)).length := by
      rw [List.length_set]
      omega
    rw [getD_set_self _ _ _ _ htlt]
    rw [getD_set_self _ _ _ _ (show tid < t.pathTable.length by omega)]
    have hfin := dropLast_append_getLastD (t.pathTable.getD tid []) 0 hqne
    simp
    simpa using hfin

theorem wp_WF : wp.WF := ⟨by decide, by decide, by decide, by decide⟩

/-! ### Claim theorems -/

/-- Claim C5: `lookup` is read-only.  For all valid (thread, address) pairs it is a
pure function of the current history and weight stores: the member state after a
bare `lookup` call is exactly the state before it, and two lookups from equal
states return equal predictions and equal snapshots. -/
theorem lookup_readonly_and_deterministic (p : PerceptronBPParams)
    (s s2 : State) (tid pc : Nat) :
    (lookup p s tid pc).1 = s ∧
      (s = s2 → lookup p s tid pc = lookup p s2 tid pc) :=
  ⟨rfl, fun hs => by rw [hs]⟩

/-- Witness for C5 on a concrete input (the state-equality hypothesis of the
second conjunct discharged at `initState wp`). -/
theorem lookup_readonly_and_deterministic_witness :
    (lookup wp (initState wp) 0 5).1 = initState wp ∧
      (initState wp = initState wp →
        lookup wp (initState wp) 0 5 = lookup wp (initState wp) 0 5) :=
  lookup_readonly_and_deterministic wp (initState wp) (initState wp) 0 5

/-- Claim C8: snapshot disposal.  `update` deletes the snapshot and nulls the
caller's handle exactly when `wasSquashed` is false (if squashed the handle is
kept for a later `squash`), and `squash` always deletes the snapshot and nulls
the handle. -/
theorem snapshot_disposal (p : PerceptronBPParams) (s : State) (tid pc : Nat)
    (taken : Bool) (h : BPHistory) (squashed : Bool) :
    ((update p s tid pc taken h squashed).2 = none ↔ squashed = false) ∧
      (squash s tid h).2 = none := by
  refine ⟨?_, squash_snd s tid h⟩
  rw [update_snd]
  cases squashed <;> simp

/-- Claim C10: `update` never modifies the History Store: the global history
registers, the local history registers and the path queues after any `update`
call are exactly those before it. -/
theorem update_preserves_history_store (p : PerceptronBPParams) (s : State)
    (tid pc : Nat) (taken : Bool) (h : BPHistory) (squashed : Bool) :
    (update p s tid pc taken h squashed).1.globalHistoryReg = s.globalHistoryReg ∧
    (update p s tid pc taken h squashed).1.branchHistoryTable =
      s.branchHistoryTable ∧
    (update p s tid pc taken h squashed).1.pathTable = s.pathTable := by
  rw [update_fst]
  split
  · exact ⟨rfl, rfl, rfl⟩
  · exact ⟨rfl, rfl, rfl⟩

/-- Claim C7: training depends only on the snapshot, never on the live history.
Two `update` calls with identical snapshot, pc, outcome and squashed flag, run
from states that agree on the weight tables but may have arbitrarily different
history registers, path queues and thread ids, produce identical weight tables. -/
theorem update_depends_only_on_snapshot (p : PerceptronBPParams)
    (s1 s2 : State) (tid1 tid2 pc : Nat) (taken : Bool) (h : BPHistory)
    (squashed : Bool)
    (hh : s1.historyWeightTable = s2.historyWeightTable)
    (ha : s1.addrWeightTable = s2.addrWeightTable) :
    (update p s1 tid1 pc taken h squashed).1.historyWeightTable =
      (update p s2 tid2 pc taken h squashed).1.historyWeightTable ∧
    (update p s1 tid1 pc taken h squashed).1.addrWeightTable =
      (update p s2 tid2 pc taken h squashed).1.addrWeightTable := by
  rw [update_fst, update_fst]
  split
  · exact ⟨by rw [hh], by rw [ha]⟩
  · exact ⟨hh, ha⟩

/-- Witness for C7: two states that differ in every history component (global
register, local register, path queue) but share the zero weight tables get
identical weight tables from `update`. -/
theorem update_depends_only_on_snapshot_witness :
    ((initState wp).historyWeightTable =
        ({ initState wp with
            globalHistoryReg := [3]
            branchHistoryTable := [1, 1]
            pathTable := [[1, 1]] } : State).historyWeightTable) ∧
    ((initState wp).addrWeightTable =
        ({ initState wp with
            globalHistoryReg := [3]
            branchHistoryTable := [1, 1]
            pathTable := [[1, 1]] } : State).addrWeightTable) ∧
    ((update wp (initState wp) 0 5 true
        ⟨2, 0, 1, [1, 0], 1, false, 0⟩ false).1.historyWeightTable =
      (update wp ({ initState wp with
            globalHistoryReg := [3]
            branchHistoryTable := [1, 1]
            pathTable := [[1, 1]] } : State) 1 5 true
        ⟨2, 0, 1, [1, 0], 1, false, 0⟩ false).1.historyWeightTable ∧
    (update wp (initState wp) 0 5 true
        ⟨2, 0, 1, [1, 0], 1, false, 0⟩ false).1.addrWeightTable =
      (update wp ({ initState wp with
            globalHistoryReg := [3]
            branchHistoryTable := [1, 1]
            pathTable := [[1, 1]] } : State) 1 5 true
        ⟨2, 0, 1, [1, 0], 1, false, 0⟩ false).1.addrWeightTable) :=
  ⟨rfl, rfl,
    update_depends_only_on_snapshot wp (initState wp) _ 0 1 5 true
      ⟨2, 0, 1, [1, 0], 1, false, 0⟩ false rfl rfl⟩

/-- Claim C1: round-trip restoration.  On every reachable state, if `lookup`
produces a snapshot and `updateHistories` (advance) is then called for the same
branch with that snapshot, an immediate `squash` with the snapshot restores the
thread's global history register, the touched bucket's local history register and
the thread's path queue to exactly the values they had before the advance. -/
theorem predict_advance_squash_roundtrip (p : PerceptronBPParams) (s : State)
    (tid pc : Nat) (taken : Bool) (hwf : p.WF) (hr : Reachable p s)
    (htid : tid < p.numThreads) :
    (squash (updateHistories p s tid pc false taken (lookup p s tid pc).2.2).1 tid
        (updateHistories p s tid pc false taken
          (lookup p s tid pc).2.2).2).1.globalHistoryReg.getD tid 0 =
      s.globalHistoryReg.getD tid 0 ∧
    (squash (updateHistories p s tid pc false taken (lookup p s tid pc).2.2).1 tid
        (updateHistories p s tid pc false taken
          (lookup p s tid pc).2.2).2).1.branchHistoryTable.getD (pc &&& p.pcMask) 0 =
      s.branchHistoryTable.getD (pc &&& p.pcMask) 0 ∧
    (squash (updateHistories p s tid pc false taken (lookup p s tid pc).2.2).1 tid
        (updateHistories p s tid pc false taken
          (lookup p s tid pc).2.2).2).1.pathTable.getD tid [] =
      s.pathTable.getD tid [] := by
  have hinv := reachable_inv hwf hr
  have hsnap_l : (lookup p s tid pc).2.2.local_ =
      s.branchHistoryTable.getD (pc &&& p.pcMask) 0 := by
    show s.branchHistoryTable.getD (pc &&& p.pcMask) 0 &&& p.localMask = _
    exact hinv.bht_masked _
  exact roundTrip_aux p s tid pc taken (lookup p s tid pc).2.2 hwf htid
    hinv.pt_len hinv.ghr_len hinv.bht_len (hinv.path_len tid htid)
    rfl hsnap_l rfl

/-- Witness for C1 at the concrete configuration `wp`, on the constructor state. -/
theorem predict_advance_squash_roundtrip_witness :
    wp.WF ∧ 0 < wp.numThreads ∧
    ((squash (updateHistories wp (initState wp) 0 5 false true
          (lookup wp (initState wp) 0 5).2.2).1 0
        (updateHistories wp (initState wp) 0 5 false true
          (lookup wp (initState wp) 0 5).2.2).2).1.globalHistoryReg.getD 0 0 =
      (initState wp).globalHistoryReg.getD 0 0 ∧
    (squash (updateHistories wp (initState wp) 0 5 false true
          (lookup wp (initState wp) 0 5).2.2).1 0
        (updateHistories wp (initState wp) 0 5 false true
          (lookup wp (initState wp) 0 5).2.2).2).1.branchHistoryTable.getD
        (5 &&& wp.pcMask) 0 =
      (initState wp).branchHistoryTable.getD (5 &&& wp.pcMask) 0 ∧
    (squash (updateHistories wp (initState wp) 0 5 false true
          (lookup wp (initState wp) 0 5).2.2).1 0
        (updateHistories wp (initState wp) 0 5 false true
          (lookup wp (initState wp) 0 5).2.2).2).1.pathTable.getD 0 [] =
      (initState wp).pathTable.getD 0 []) :=
  ⟨wp_WF, by decide,
    predict_advance_squash_roundtrip wp (initState wp) 0 5 true wp_WF
      (Reachable.init) (by decide)⟩

/-- Claim C2: out-of-order squash of the youngest in-flight branch.  After
predict+advance for branch A and then predict+advance for branch B on the same
thread, squashing with B's snapshot leaves both weight tables exactly as they
were (the whole sequence never touches them), and returns the thread's global
history register and path queue to their state immediately after A's advance.
(Snapshots are immutable values of the embedding, so A's snapshot cannot be
affected; `squash` takes only B's snapshot as input.) -/
theorem squash_youngest_restores_post_advance_A (p : PerceptronBPParams)
    (s : State) (tid pcA pcB : Nat) (takenA takenB : Bool)
    (hwf : p.WF) (hr : Reachable p s) (htid : tid < p.numThreads) :
    (squash (updateHistories p
          (updateHistories p s tid pcA false takenA (lookup p s tid pcA).2.2).1
          tid pcB false takenB
          (lookup p (updateHistories p s tid pcA false takenA
            (lookup p s tid pcA).2.2).1 tid pcB).2.2).1 tid
        (updateHistories p
          (updateHistories p s tid pcA false takenA (lookup p s tid pcA).2.2).1
          tid pcB false takenB
          (lookup p (updateHistories p s tid pcA false takenA
            (lookup p s tid pcA).2.2).1 tid pcB).2.2).2).1.globalHistoryReg.getD
        tid 0 =
      (updateHistories p s tid pcA false takenA
        (lookup p s tid pcA).2.2).1.globalHistoryReg.getD tid 0 ∧
    (squash (updateHistories p
          (updateHistories p s tid pcA false takenA (lookup p s tid pcA).2.2).1
          tid pcB false takenB
          (lookup p (updateHistories p s tid pcA false takenA
            (lookup p s tid pcA).2.2).1 tid pcB).2.2).1 tid
        (updateHistories p
          (updateHistories p s tid pcA false takenA (lookup p s tid pcA).2.2).1
          tid pcB false takenB
          (lookup p (updateHistories p s tid pcA false takenA
            (lookup p s tid pcA).2.2).1 tid pcB).2.2).2).1.pathTable.getD tid [] =
      (updateHistories p s tid pcA false takenA
        (lookup p s tid pcA).2.2).1.pathTable.getD tid [] ∧
    (squash (updateHistories p
          (updateHistories p s tid pcA false takenA (lookup p s tid pcA).2.2).1
          tid pcB false takenB
          (lookup p (updateHistories p s tid pcA false takenA
            (lookup p s tid pcA).2.2).1 tid pcB).2.2).1 tid
        (updateHistories p
          (updateHistories p s tid pcA false takenA (lookup p s tid pcA).2.2).1
          tid pcB false takenB
          (lookup p (updateHistories p s tid pcA false takenA
            (lookup p s tid pcA).2.2).1 tid pcB).2.2).2).1.historyWeightTable =
      s.historyWeightTable ∧
    (squash (updateHistories p
          (updateHistories p s tid pcA false takenA (lookup p s tid pcA).2.2).1
          tid pcB false takenB
          (lookup p (updateHistories p s tid pcA false takenA
            (lookup p s tid pcA).2.2).1 tid pcB).2.2).1 tid
        (updateHistories p
          (updateHistories p s tid pcA false takenA (lookup p s tid pcA).2.2).1
          tid pcB false takenB
          (lookup p (updateHistories p s tid pcA false takenA
            (lookup p s tid pcA).2.2).1 tid pcB).2.2).2).1.addrWeightTable =
      s.addrWeightTable := by
  have hr1 : Reachable p (updateHistories p s tid pcA false takenA
      (lookup p s tid pcA).2.2).1 :=
    Reachable.advanceStep tid pcA false takenA (lookup p s tid pcA).2.2 hr
  have hinv1 := reachable_inv hwf hr1
  have hsnap_l : (lookup p (updateHistories p s tid pcA false takenA
        (lookup p s tid pcA).2.2).1 tid pcB).2.2.local_ =
      (updateHistories p s tid pcA false takenA
        (lookup p s tid pcA).2.2).1.branchHistoryTable.getD (pcB &&& p.pcMask) 0 := by
    show (updateHistories p s tid pcA false takenA
        (lookup p s tid pcA).2.2).1.branchHistoryTable.getD (pcB &&& p.pcMask) 0 &&&
        p.localMask = _
    exact hinv1.bht_masked _
  have hrt := roundTrip_aux p
    (updateHistories p s tid pcA false takenA (lookup p s tid pcA).2.2).1
    tid pcB takenB
    (lookup p (updateHistories p s tid pcA false takenA
      (lookup p s tid pcA).2.2).1 tid pcB).2.2
    hwf htid hinv1.pt_len hinv1.ghr_len hinv1.bht_len (hinv1.path_len tid htid)
    rfl hsnap_l rfl
  refine ⟨hrt.1, hrt.2.2, ?_, ?_⟩
  · rw [(squash_weights _ _ _).1, (updateHistories_weights _ _ _ _ _ _ _).1,
      (updateHistories_weights _ _ _ _ _ _ _).1]
  · rw [(squash_weights _ _ _).2, (updateHistories_weights _ _ _ _ _ _ _).2,
      (updateHistories_weights _ _ _ _ _ _ _).2]

/-- Witness for C2 at the concrete configuration `wp`, on the constructor state. -/
theorem squash_youngest_restores_post_advance_A_witness :
    wp.WF ∧ 0 < wp.numThreads ∧
    ((squash (updateHistories wp
          (updateHistories wp (initState wp) 0 4 false true
            (lookup wp (initState wp) 0 4).2.2).1
          0 7 false false
          (lookup wp (updateHistories wp (initState wp) 0 4 false true
            (lookup wp (initState wp) 0 4).2.2).1 0 7).2.2).1 0
        (updateHistories wp
          (updateHistories wp (initState wp) 0 4 false true
            (lookup wp (initState wp) 0 4).2.2).1
          0 7 false false
          (lookup wp (updateHistories wp (initState wp) 0 4 false true
            (lookup wp (initState wp) 0 4).2.2).1 0 7).2.2).2).1.globalHistoryReg.getD
        0 0 =
      (updateHistories wp (initState wp) 0 4 false true
        (lookup wp (initState wp) 0 4).2.2).1.globalHistoryReg.getD 0 0 ∧
    (squash (updateHistories wp
          (updateHistories wp (initState wp) 0 4 false true
            (lookup wp (initState wp) 0 4).2.2).1
          0 7 false false
          (lookup wp (updateHistories wp (initState wp) 0 4 false true
            (lookup wp (initState wp) 0 4).2.2).1 0 7).2.2).1 0
        (updateHistories wp
          (updateHistories wp (initState wp) 0 4 false true
            (lookup wp (initState wp) 0 4).2.2).1
          0 7 false false
          (lookup wp (updateHistories wp (initState wp) 0 4 false true
            (lookup wp (initState wp) 0 4).2.2).1 0 7).2.2).2).1.pathTable.getD 0 [] =
      (updateHistories wp (initState wp) 0 4 false true
        (lookup wp (initState wp) 0 4).2.2).1.pathTable.getD 0 [] ∧
    (squash (updateHistories wp
          (updateHistories wp (initState wp) 0 4 false true
            (lookup wp (initState wp) 0 4).2.2).1
          0 7 false false
          (lookup wp (updateHistories wp (initState wp) 0 4 false true
            (lookup wp (initState wp) 0 4).2.2).1 0 7).2.2).1 0
        (updateHistories wp
          (updateHistories wp (initState wp) 0 4 false true
            (lookup wp (initState wp) 0 4).2.2).1
          0 7 false false
          (lookup wp (updateHistories wp (initState wp) 0 4 false true
            (lookup wp (initState wp) 0 4).2.2).1 0 7).2.2).2).1.historyWeightTable =
      (initState wp).historyWeightTable ∧
    (squash (updateHistories wp
          (updateHistories wp (initState wp) 0 4 false true
            (lookup wp (initState wp) 0 4).2.2).1
          0 7 false false
          (lookup wp (updateHistories wp (initState wp) 0 4 false true
            (lookup wp (initState wp) 0 4).2.2).1 0 7).2.2).1 0
        (updateHistories wp
          (updateHistories wp (initState wp) 0 4 false true
            (lookup wp (initState wp) 0 4).2.2).1
          0 7 false false
          (lookup wp (updateHistories wp (initState wp) 0 4 false true
            (lookup wp (initState wp) 0 4).2.2).1 0 7).2.2).2).1.addrWeightTable =
      (initState wp).addrWeightTable) :=
  ⟨wp_WF, by decide,
    squash_youngest_restores_post_advance_A wp (initState wp) 0 4 7 true false
      wp_WF (Reachable.init) (by decide)⟩

/-- Every entry of `bias-adjust then train` differs from the original entry by
an element of `{0, +1, -1}` (the bias step touches only column 0, the loop step
for `j` touches only column `j`). -/
theorem getEntry_bias_then_train (t : List (List Int)) (b : Nat) (db : Int)
    (path : List Nat) (n : Nat) (bit : Nat → Bool) (taken : Bool) (k j : Nat)
    (hdb : db = 1 ∨ db = -1) :
    getEntry (trainTable (adjustEntry t b 0 db) path n bit taken) k j =
        getEntry t k j ∨
      getEntry (trainTable (adjustEntry t b 0 db) path n bit taken) k j =
        getEntry t k j + 1 ∨
      getEntry (trainTable (adjustEntry t b 0 db) path n bit taken) k j =
        getEntry t k j - 1 := by
  rw [getEntry_trainTable]
  by_cases hc : 0 < j ∧ j ≤ n ∧ k = path.getD (j - 1) 0 ∧
      k < (adjustEntry t b 0 db).length ∧ j < ((adjustEntry t b 0 db).getD k []).length
  · rw [if_pos hc]
    obtain ⟨hj, -, -, -, -⟩ := hc
    rw [getEntry_adjustEntry, if_neg (by rintro ⟨-, hj0, -, -⟩; omega)]
    by_cases hb2 : taken = bit (j - 1)
    · rw [if_pos hb2]
      right; left; rfl
    · rw [if_neg hb2]
      right; right; omega
  · rw [if_neg hc, getEntry_adjustEntry]
    by_cases hb0 : k = b ∧ j = 0 ∧ b < t.length ∧ 0 < (t.getD b []).length
    · rw [if_pos hb0, hb0.1, hb0.2.1]
      rcases hdb with h1 | h1
      · right; left; rw [h1]
      · right; right; rw [h1]; omega
    · rw [if_neg hb0]
      left; rfl

/-- Claim C3: saturation policy.  If the recorded score satisfies `|y| > 64` and
the branch was not squashed, `update` leaves both weight tables exactly
unchanged; conversely, whenever the branch was squashed or `-64 <= y <= 64`,
training fires: both bias weights of the branch's bucket move by exactly the
outcome's unit step, so the weight tables do change. -/
theorem update_saturation_policy (p : PerceptronBPParams) (s : State)
    (tid pc : Nat) (taken : Bool) (h : BPHistory)
    (hwf : p.WF) (hinv : Inv p s) :
    (64 < h.last_y.natAbs →
      (update p s tid pc taken h false).1.historyWeightTable =
          s.historyWeightTable ∧
        (update p s tid pc taken h false).1.addrWeightTable =
          s.addrWeightTable) ∧
    (∀ squashed : Bool, (squashed = true ∨ h.last_y.natAbs ≤ 64) →
      getEntry (update p s tid pc taken h squashed).1.historyWeightTable
          (pc &&& p.pcMask) 0 =
        getEntry s.historyWeightTable (pc &&& p.pcMask) 0 +
          (if taken then 1 else -1) ∧
      getEntry (update p s tid pc taken h squashed).1.addrWeightTable
          (pc &&& p.pcMask) 0 =
        getEntry s.addrWeightTable (pc &&& p.pcMask) 0 +
          (if taken then 1 else -1) ∧
      (update p s tid pc taken h squashed).1.historyWeightTable ≠
        s.historyWeightTable) := by
  constructor
  · intro hy
    rw [update_fst, if_neg (by
      rintro (hsq | ⟨h1, h2⟩)
      · exact absurd hsq (by simp)
      · omega)]
    exact ⟨rfl, rfl⟩
  · intro squashed hsq
    have hguard : squashed = true ∨ (h.last_y ≤ 64 ∧ -64 ≤ h.last_y) := by
      rcases hsq with hs | hs
      · exact Or.inl hs
      · right; omega
    have hblt := bucket_lt hwf pc
    have hb_lt : pc &&& p.pcMask < s.historyWeightTable.length := by
      rw [hinv.hwt_len]; exact hblt
    have hrowh : 0 < (s.historyWeightTable.getD (pc &&& p.pcMask) []).length := by
      rw [hinv.hwt_rows _ hblt]; omega
    have ha_lt : pc &&& p.pcMask < s.addrWeightTable.length := by
      rw [hinv.awt_len]; exact hblt
    have hrowa : 0 < (s.addrWeightTable.getD (pc &&& p.pcMask) []).length := by
      rw [hinv.awt_rows _ hblt]; omega
    have hhist : getEntry (update p s tid pc taken h squashed).1.historyWeightTable
        (pc &&& p.pcMask) 0 =
        getEntry s.historyWeightTable (pc &&& p.pcMask) 0 +
          (if taken then 1 else -1) := by
      rw [update_fst, if_pos hguard]
      show getEntry (trainTable _ _ _ _ _) (pc &&& p.pcMask) 0 = _
      rw [getEntry_trainTable, if_neg (by rintro ⟨h0, -, -, -, -⟩; omega)]
      rw [getEntry_adjustEntry]
      rw [if_pos (show pc &&& p.pcMask = pc &&& p.pcMask ∧ (0 : Nat) = 0 ∧
          pc &&& p.pcMask < s.historyWeightTable.length ∧
          0 < (s.historyWeightTable.getD (pc &&& p.pcMask) []).length from
        ⟨rfl, rfl, hb_lt, hrowh⟩)]
    have haddr : getEntry (update p s tid pc taken h squashed).1.addrWeightTable
        (pc &&& p.pcMask) 0 =
        getEntry s.addrWeightTable (pc &&& p.pcMask) 0 +
          (if taken then 1 else -1) := by
      rw [update_fst, if_pos hguard]
      show getEntry (trainTable _ _ _ _ _) (pc &&& p.pcMask) 0 = _
      rw [getEntry_trainTable, if_neg (by rintro ⟨h0, -, -, -, -⟩; omega)]
      rw [getEntry_adjustEntry]
      rw [if_pos (show pc &&& p.pcMask = pc &&& p.pcMask ∧ (0 : Nat) = 0 ∧
          pc &&& p.pcMask < s.addrWeightTable.length ∧
          0 < (s.addrWeightTable.getD (pc &&& p.pcMask) []).length from
        ⟨rfl, rfl, ha_lt, hrowa⟩)]
    refine ⟨hhist, haddr, ?_⟩
    intro heq
    rw [heq] at hhist
    split at hhist <;> omega

/-- Witness for C3 at the concrete configuration `wp`: a snapshot with recorded
score 100 (saturated) and one with recorded score 3 (inside the band). -/
theorem update_saturation_policy_witness :
    wp.WF ∧
    (64 < (⟨0, 0, 0, [0, 0], 1, false, 100⟩ : BPHistory).last_y.natAbs →
      (update wp (initState wp) 0 5 true
          ⟨0, 0, 0, [0, 0], 1, false, 100⟩ false).1.historyWeightTable =
          (initState wp).historyWeightTable ∧
        (update wp (initState wp) 0 5 true
          ⟨0, 0, 0, [0, 0], 1, false, 100⟩ false).1.addrWeightTable =
          (initState wp).addrWeightTable) ∧
    (∀ squashed : Bool,
      (squashed = true ∨ (⟨0, 0, 0, [0, 0], 1, false, 100⟩ : BPHistory).last_y.natAbs ≤ 64) →
      getEntry (update wp (initState wp) 0 5 true
          ⟨0, 0, 0, [0, 0], 1, false, 100⟩ squashed).1.historyWeightTable
          (5 &&& wp.pcMask) 0 =
        getEntry (initState wp).historyWeightTable (5 &&& wp.pcMask) 0 +
          (if true then 1 else -1) ∧
      getEntry (update wp (initState wp) 0 5 true
          ⟨0, 0, 0, [0, 0], 1, false, 100⟩ squashed).1.addrWeightTable
          (5 &&& wp.pcMask) 0 =
        getEntry (initState wp).addrWeightTable (5 &&& wp.pcMask) 0 +
          (if true then 1 else -1) ∧
      (update wp (initState wp) 0 5 true
          ⟨0, 0, 0, [0, 0], 1, false, 100⟩ squashed).1.historyWeightTable ≠
        (initState wp).historyWeightTable) :=
  ⟨wp_WF,
    update_saturation_policy wp (initState wp) 0 5 true
      ⟨0, 0, 0, [0, 0], 1, false, 100⟩ wp_WF (inv_init wp)⟩

/-- Claim C6: training monotonicity.  Whenever training fires, every weight
entry of either table changes by exactly +1 or -1 or stays unchanged, and the
total number of unit steps applied (the distance between the new and old
tables) is bounded by `history_length + branchAddrBits + 2`. -/
theorem update_training_monotonic (p : PerceptronBPParams) (s : State)
    (tid pc : Nat) (taken : Bool) (h : BPHistory) (squashed : Bool)
    (hfire : squashed = true ∨ (h.last_y ≤ 64 ∧ -64 ≤ h.last_y)) :
    (∀ k j,
      getEntry (update p s tid pc taken h squashed).1.historyWeightTable k j =
          getEntry s.historyWeightTable k j ∨
        getEntry (update p s tid pc taken h squashed).1.historyWeightTable k j =
          getEntry s.historyWeightTable k j + 1 ∨
        getEntry (update p s tid pc taken h squashed).1.historyWeightTable k j =
          getEntry s.historyWeightTable k j - 1) ∧
    (∀ k j,
      getEntry (update p s tid pc taken h squashed).1.addrWeightTable k j =
          getEntry s.addrWeightTable k j ∨
        getEntry (update p s tid pc taken h squashed).1.addrWeightTable k j =
          getEntry s.addrWeightTable k j + 1 ∨
        getEntry (update p s tid pc taken h squashed).1.addrWeightTable k j =
          getEntry s.addrWeightTable k j - 1) ∧
    tableDist (update p s tid pc taken h squashed).1.historyWeightTable
        s.historyWeightTable +
      tableDist (update p s tid pc taken h squashed).1.addrWeightTable
        s.addrWeightTable ≤
      p.history_length + p.branchAddrBits + 2 := by
  have hdb : (if taken then (1 : Int) else -1) = 1 ∨
      (if taken then (1 : Int) else -1) = -1 := by
    split
    · exact Or.inl rfl
    · exact Or.inr rfl
  have habs : (if taken then (1 : Int) else -1).natAbs = 1 := by
    split <;> rfl
  refine ⟨?_, ?_, ?_⟩
  · intro k j
    rw [update_fst, if_pos hfire]
    exact getEntry_bias_then_train s.historyWeightTable (pc &&& p.pcMask) _
      h.path p.history_length _ taken k j hdb
  · intro k j
    rw [update_fst, if_pos hfire]
    exact getEntry_bias_then_train s.addrWeightTable (pc &&& p.pcMask) _
      h.path p.branchAddrBits _ taken k j hdb
  · rw [update_fst, if_pos hfire]
    have hh : tableDist (trainTable (adjustEntry s.historyWeightTable
        (pc &&& p.pcMask) 0 (if taken then 1 else -1)) h.path p.history_length
        (fun i => (((h.globalHistoryReg &&& p.globalHistoryMask) <<<
          p.localHistoryBits) ||| h.local_).testBit i) taken)
        s.historyWeightTable ≤ p.history_length + 1 := by
      have h1 := tableDist_triangle s.historyWeightTable
        (sameShape_trainTable (adjustEntry s.historyWeightTable
          (pc &&& p.pcMask) 0 (if taken then 1 else -1)) h.path p.history_length
          (fun i => (((h.globalHistoryReg &&& p.globalHistoryMask) <<<
            p.localHistoryBits) ||| h.local_).testBit i) taken)
      have h2 := tableDist_trainTable_le (adjustEntry s.historyWeightTable
        (pc &&& p.pcMask) 0 (if taken then 1 else -1)) h.path p.history_length
        (fun i => (((h.globalHistoryReg &&& p.globalHistoryMask) <<<
          p.localHistoryBits) ||| h.local_).testBit i) taken
      have h3 := le_trans (tableDist_adjustEntry_le s.historyWeightTable
        (pc &&& p.pcMask) 0 (if taken then 1 else -1)) (le_of_eq habs)
      omega
    have ha : tableDist (trainTable (adjustEntry s.addrWeightTable
        (pc &&& p.pcMask) 0 (if taken then 1 else -1)) h.path p.branchAddrBits
        (fun i => (pc &&& p.pcMask).testBit i) taken)
        s.addrWeightTable ≤ p.branchAddrBits + 1 := by
      have h1 := tableDist_triangle s.addrWeightTable
        (sameShape_trainTable (adjustEntry s.addrWeightTable
          (pc &&& p.pcMask) 0 (if taken then 1 else -1)) h.path p.branchAddrBits
          (fun i => (pc &&& p.pcMask).testBit i) taken)
      have h2 := tableDist_trainTable_le (adjustEntry s.addrWeightTable
        (pc &&& p.pcMask) 0 (if taken then 1 else -1)) h.path p.branchAddrBits
        (fun i => (pc &&& p.pcMask).testBit i) taken
      have h3 := le_trans (tableDist_adjustEntry_le s.addrWeightTable
        (pc &&& p.pcMask) 0 (if taken then 1 else -1)) (le_of_eq habs)
      omega
    exact le_trans (Nat.add_le_add hh ha) (by omega)

/-- Witness for C6 at the concrete configuration `wp` with a squashed branch. -/
theorem update_training_monotonic_witness :
    (true = true ∨ ((⟨0, 0, 0, [0, 0], 1, false, 100⟩ : BPHistory).last_y ≤ 64 ∧
      -64 ≤ (⟨0, 0, 0, [0, 0], 1, false, 100⟩ : BPHistory).last_y)) ∧
    tableDist (update wp (initState wp) 0 5 true
        ⟨0, 0, 0, [0, 0], 1, false, 100⟩ true).1.historyWeightTable
        (initState wp).historyWeightTable +
      tableDist (update wp (initState wp) 0 5 true
        ⟨0, 0, 0, [0, 0], 1, false, 100⟩ true).1.addrWeightTable
        (initState wp).addrWeightTable ≤
      wp.history_length + wp.branchAddrBits + 2 :=
  ⟨Or.inl rfl,
    (update_training_monotonic wp (initState wp) 0 5 true
      ⟨0, 0, 0, [0, 0], 1, false, 100⟩ true (Or.inl rfl)).2.2⟩

/-- Claim C9: path-queue capacity invariant.  The constructor builds every
thread's path queue already holding exactly `PT_LEN = max(branchAddrBits,
history_length)` entries, all zero; `lookup` leaves the state untouched;
`updateHistories` preserves every queue's length and (because the queue is
therefore always at capacity) always evicts a back element and sets the
snapshot's replaced flag; `update` never touches the path queues; and `squash`
with a snapshot produced by a matching advance (replaced flag set) preserves
every queue's length. -/
theorem path_queue_capacity_invariant (p : PerceptronBPParams) (hwf : p.WF) :
    (∀ tid, tid < p.numThreads →
      (initState p).pathTable.getD tid [] = List.replicate p.PT_LEN 0) ∧
    (∀ (s : State) (tid pc : Nat), (lookup p s tid pc).1 = s) ∧
    (∀ (s : State) (tid pc : Nat) (uncond taken : Bool) (h : BPHistory),
      s.pathTable.length = p.numThreads →
      (∀ t', t' < p.numThreads → (s.pathTable.getD t' []).length = p.PT_LEN) →
      tid < p.numThreads →
      ((∀ t', t' < p.numThreads →
        ((updateHistories p s tid pc uncond taken h).1.pathTable.getD t'
          []).length = p.PT_LEN) ∧
       (updateHistories p s tid pc uncond taken h).2.branchAddrReplaced = true)) ∧
    (∀ (s : State) (tid pc : Nat) (taken : Bool) (h : BPHistory) (squashed : Bool),
      (update p s tid pc taken h squashed).1.pathTable = s.pathTable) ∧
    (∀ (s : State) (tid : Nat) (h : BPHistory),
      h.branchAddrReplaced = true →
      s.pathTable.length = p.numThreads →
      (∀ t', t' < p.numThreads → (s.pathTable.getD t' []).length = p.PT_LEN) →
      ∀ t', t' < p.numThreads →
        ((squash s tid h).1.pathTable.getD t' []).length = p.PT_LEN) := by
  refine ⟨?_, ?_, ?_, ?_, ?_⟩
  · intro tid htid
    simp [initState, List.getD_eq_getElem?_getD, List.getElem?_replicate, htid]
  · intro s tid pc
    exact lookup_fst p s tid pc
  · intro s tid pc uncond taken h hplen hq htid
    constructor
    · intro t' htid'
      rw [updateHistories_fst]
      show ((s.pathTable.set tid _).getD t' []).length = p.PT_LEN
      rw [getD_set]
      split
      · rename_i hc
        obtain ⟨hceq, -⟩ := hc
        subst hceq
        have hlen := hq t' htid'
        rw [if_pos hlen]
        simp only [List.length_cons, List.length_dropLast, hlen]
        have := PT_LEN_pos hwf
        omega
      · exact hq t' htid'
    · rw [updateHistories_snd, if_pos (hq tid htid)]
  · intro s tid pc taken h squashed
    rw [update_fst]
    split
    · rfl
    · rfl
  · intro s tid h hrep hplen hq t' htid'
    rw [squash_fst]
    show ((s.pathTable.set tid _).getD t' []).length = p.PT_LEN
    rw [getD_set]
    split
    · rename_i hc
      obtain ⟨hceq, -⟩ := hc
      subst hceq
      have hlen := hq t' htid'
      have hpos := PT_LEN_pos hwf
      have hne : (s.pathTable.getD t' []).isEmpty = false := by
        cases hcase : s.pathTable.getD t' [] with
        | nil => rw [hcase] at hlen; simp at hlen; omega
        | cons a l => rfl
      rw [hne, if_neg Bool.false_ne_true]
      simp only [List.length_append, List.length_tail, hlen, List.length_singleton]
      omega
    · exact hq t' htid'

/-- Witness for C9 at the concrete configuration `wp`: each queue of the
constructor state is `[0, 0]` (capacity `max(1, 2) = 2`). -/
theorem path_queue_capacity_invariant_witness :
    wp.WF ∧ (∀ tid, tid < wp.numThreads →
      (initState wp).pathTable.getD tid [] = List.replicate wp.PT_LEN 0) :=
  ⟨wp_WF, (path_queue_capacity_invariant wp wp_WF).1⟩

/-- Claim C4: the prediction rule.  `lookup` predicts taken exactly when the
total score is non-negative, the total score being the history-table score (bias
of the bucket's row plus the path-indexed signed sum over the combined
global-high/local-low history bits) plus the address-table score over the low
`branchAddrBits` PC bits, with the bucket the masked PC. -/
theorem lookup_prediction_rule (p : PerceptronBPParams) (s : State)
    (tid pc : Nat) (hwf : p.WF) :
    ((lookup p s tid pc).2.1 = true ↔
      0 ≤ specHistoryScore p s tid pc + specAddrScore p s tid pc) := by
  have hfold : (lookup p s tid pc).2.1 = decide (0 ≤
      scoreTable s.addrWeightTable (s.pathTable.getD tid [])
        p.branchAddrBits (fun i => (pc &&& p.pcMask).testBit i)
        (getEntry s.addrWeightTable (pc &&& p.pcMask) 0) +
      scoreTable s.historyWeightTable (s.pathTable.getD tid [])
        p.history_length (fun i => (((s.globalHistoryReg.getD tid 0 &&&
          p.globalHistoryMask) <<< p.localHistoryBits) |||
          (s.branchHistoryTable.getD (pc &&& p.pcMask) 0 &&&
            p.localMask)).testBit i)
        (getEntry s.historyWeightTable (pc &&& p.pcMask) 0)) := rfl
  rw [hfold, decide_eq_true_iff]
  rw [scoreTable_eq_sum, scoreTable_eq_sum]
  simp only [specHistoryScore, specAddrScore]
  have hsum : ∑ i in Finset.range p.branchAddrBits,
      (if (pc &&& p.pcMask).testBit i then (1 : Int) else -1) *
        getEntry s.addrWeightTable ((s.pathTable.getD tid []).getD i 0) (i + 1) =
      ∑ i in Finset.range p.branchAddrBits,
      (if pc.testBit i then (1 : Int) else -1) *
        getEntry s.addrWeightTable ((s.pathTable.getD tid []).getD i 0) (i + 1) := by
    apply Finset.sum_congr rfl
    intro i hi
    rw [Finset.mem_range] at hi
    have hbit : (pc &&& p.pcMask).testBit i = pc.testBit i := by
      rw [Nat.testBit_and, pcMask_eq hwf, Nat.testBit_two_pow_sub_one]
      simp [hi]
    rw [hbit]
  rw [hsum]
  rw [Int.add_comm]

/-- Witness for C4 at the concrete configuration `wp`. -/
theorem lookup_prediction_rule_witness :
    wp.WF ∧ ((lookup wp (initState wp) 0 5).2.1 = true ↔
      0 ≤ specHistoryScore wp (initState wp) 0 5 +
        specAddrScore wp (initState wp) 0 5) :=
  ⟨wp_WF, lookup_prediction_rule wp (initState wp) 0 5 wp_WF⟩

end PerceptronBP
